import Mathlib

/-!
Shallow embedding of the `dedup` repository (two Python utilities:
`src/dedup.py`, the Deduplicator, and `src/sortfile.py`, the DateSorter),
together with proofs settling the specification claims.

Modelling conventions:
* file contents are byte lists (`List Nat`);
* the filesystem is a structure of pure functions: `listing` is the recursive
  enumeration produced by `pathlib.Path.glob("**/*")` on a source directory
  (`none` models a directory that cannot be traversed, in which case glob
  silently yields no entries); `readB` gives a file's bytes (`none` models an
  unreadable file, where `open(...).read()` raises `IOError`); `dirs` is the
  set of existing directories; `mdate` gives a file's last-modified timestamp
  already converted to a local-time calendar date, as
  `datetime.fromtimestamp(st_mtime)` does;
* the content-hash function (`hashlib.sha256(...).digest()`) is an arbitrary
  parameter `hash : List Nat → List Nat`, since no claim depends on properties
  of SHA-256 itself;
* Python dicts are association lists with insertion order preserved
  (`dinsert` models `d[k] = v`, `setMd5` models mutating an existing record);
* exceptions are modelled with `Except String`, the string naming the Python
  exception class; each run returns the list of copy operations it performed
  together with its outcome, so "no file has been copied yet" is expressible
  on the error path.
-/

namespace DedupSpec

/-- The characters of the final path component: scan left to right,
restarting the current component after each `/`. -/
def baseNameAux (cur : List Char) : List Char → List Char
  | [] => cur
  | c :: cs => if c = '/' then baseNameAux [] cs else baseNameAux (cur ++ [c]) cs

/-- Python `pathlib.PurePath.name`: the final path component. -/
def baseName (p : String) : String :=
  ⟨baseNameAux [] p.data⟩

/-- Python `pathlib.PurePath.parent`: the path with the final component removed;
`Path("x").parent = Path(".")`, `Path("/x").parent = Path("/")`. -/
def parentDir (p : String) : String :=
  match p.data.reverse.dropWhile (fun c => c ≠ '/') with
  | [] => "."
  | [_] => "/"
  | _ :: rest => ⟨rest.reverse⟩

/-- Association-list lookup (Python `d[k]` / `k in d`). -/
def alookup {α : Type} : List (String × α) → String → Option α
  | [], _ => none
  | (k, v) :: rest, n => if k = n then some v else alookup rest n

/-- Python dict assignment `d[k] = v`: update in place if the key exists
(keeping its position), else append at the end (insertion order). -/
def dinsert {α : Type} : List (String × α) → String → α → List (String × α)
  | [], k, v => [(k, v)]
  | (k', v') :: rest, k, v =>
    if k' = k then (k', v) :: rest else (k', v') :: dinsert rest k v

/-- One filesystem object yielded by `glob("**/*...")`: its path and whether
it is a regular file (`path.is_file()`). -/
structure Entry where
  path : String
  isFile : Bool
  deriving DecidableEq

/-- A calendar date in the host's local time zone (what
`datetime.fromtimestamp` yields from `st_mtime`, projected to Y/M/D). -/
structure SDate where
  year : Nat
  month : Nat
  day : Nat
  deriving DecidableEq

/-- The ambient filesystem, as seen through the collaborator primitives. -/
structure FS where
  listing : String → Option (List Entry)
  readB : String → Option (List Nat)
  dirs : List String
  mdate : String → SDate

/-- Models `src.glob("**/*" + dot_ext)`: recursive enumeration of one source
directory, filtered on the extension when given.  When the directory cannot
be traversed (e.g. it does not exist), `pathlib`'s selector sees
`is_dir() = False` and yields nothing — no error is raised. -/
def globDir (fs : FS) (src : String) (ext : Option String) : List Entry :=
  match fs.listing src with
  | none => []
  | some es =>
    match ext with
    | none => es
    | some x => es.filter (fun e => (baseName e.path).endsWith ("." ++ x))

/-- The full enumeration of `dedup.py`: sources in the order given, each
recursively globbed (source-list order, then intra-directory order). -/
def entriesOf (fs : FS) (sources : List String) (ext : Option String) : List Entry :=
  sources.flatMap (fun s => globDir fs s ext)

/-- The regular files among a list of entries (`path.is_file()` filter). -/
def regularsOf (l : List Entry) : List Entry :=
  l.filter (fun e => e.isFile)

/-- The first-encountered entry with the given base filename. -/
def firstWithName (l : List Entry) (n : String) : Option Entry :=
  l.find? (fun e => baseName e.path = n)

/-- Record `files[fname]` in `dedup.py`: the metadata dict for one filename, holding
the chosen file's path and, once a collision has occurred, the
stored content hash (the `"md5"` key). -/
structure FileRec where
  file : String
  md5 : Option (List Nat)
  deriving DecidableEq

/-- Mutating `files[fname]["md5"] = h` on an existing record: the record keeps
its position and its `file` field. -/
def setMd5 : List (String × FileRec) → String → List Nat → List (String × FileRec)
  | [], _, _ => []
  | (k', r) :: rest, k, h =>
    if k' = k then (k', { r with md5 := some h }) :: setMd5 rest k h
    else (k', r) :: setMd5 rest k h

/-- The in-memory state of the Deduplicator's indexing loop
(`skip_count`, `conflict_count`, `conflicts`, `files`), plus `hashEvents`:
the trace of paths passed to `hashlib.sha256(file_as_bytes(open(...)))`, in
program order, recording each hash computation performed. -/
structure DState where
  skipCount : Nat
  conflictCount : Nat
  conflicts : List (String × String)
  files : List (String × FileRec)
  hashEvents : List String
  deriving DecidableEq

def initDState : DState := ⟨0, 0, [], [], []⟩

/-- One iteration of the `for path in flist` loop of `dedup.py` (lines
62–111).  Non-files are skipped; a fresh filename is inserted with no hash;
on a collision the new file is hashed first (line 83), then the kept record's
file is re-hashed and the result stored (line 87); differing hashes append a
conflict pair and bump `conflict_count`; `skip_count` is bumped either way. -/
def dedupStep (hash : List Nat → List Nat) (readB : String → Option (List Nat))
    (st : DState) (e : Entry) : Except String DState :=
  if e.isFile then
    match alookup st.files (baseName e.path) with
    | none =>
      .ok { st with files := st.files ++ [(baseName e.path, ⟨e.path, none⟩)] }
    | some r =>
      match readB e.path with
      | none => .error "IOError"
      | some nb =>
        match readB r.file with
        | none => .error "IOError"
        | some kb =>
          if hash kb = hash nb then
            .ok { st with
                  hashEvents := st.hashEvents ++ [e.path, r.file]
                  files := setMd5 st.files (baseName e.path) (hash kb)
                  skipCount := st.skipCount + 1 }
          else
            .ok { st with
                  hashEvents := st.hashEvents ++ [e.path, r.file]
                  files := setMd5 st.files (baseName e.path) (hash kb)
                  conflicts := st.conflicts ++ [(r.file, e.path)]
                  conflictCount := st.conflictCount + 1
                  skipCount := st.skipCount + 1 }
  else
    .ok st

/-- The whole indexing phase: the nested source/file loops of `dedup.py`,
folded over the flattened enumeration; the first `IOError` aborts. -/
def processList (hash : List Nat → List Nat) (readB : String → Option (List Nat)) :
    DState → List Entry → Except String DState
  | st, [] => .ok st
  | st, e :: es =>
    match dedupStep hash readB st e with
    | .error err => .error err
    | .ok st' => processList hash readB st' es

/-- Models `Path(out).mkdir(parents=False, exist_ok=True)`: succeed leaving the tree
alone if the directory exists; create it if its parent exists; otherwise
raise (`FileNotFoundError`, an `OSError`/`IOError`). -/
def mkdirNoParents (dirs : List String) (out : String) :
    Except String (List String) :=
  if out ∈ dirs then .ok dirs
  else if parentDir out ∈ dirs then .ok (out :: dirs)
  else .error "IOError"

/-- The copy loop of `dedup.py` (lines 117–125): for each retained record, in
index insertion order, `shutil.copy2(srcfile, out / srcfile.name)`.  Returns
the copies performed (src path, dst path) and, on success, the output
directory's contents keyed by destination filename; `copy2` overwrites an
existing destination.  A failing read aborts, keeping the copies made so
far. -/
def copyPhase (readB : String → Option (List Nat)) (out : String) :
    List (String × FileRec) → List (String × String) → List (String × List Nat) →
    List (String × String) × Except String (List (String × List Nat))
  | [], cs, m => (cs, .ok m)
  | (_, r) :: rest, cs, m =>
    match readB r.file with
    | none => (cs, .error "IOError")
    | some b =>
      copyPhase readB out rest (cs ++ [(r.file, out ++ "/" ++ baseName r.file)])
        (dinsert m (baseName r.file) b)

/-- Everything a completed Deduplicator run exposes: the final loop state and
the output directory contents. -/
structure RunOut where
  skipCount : Nat
  conflictCount : Nat
  conflicts : List (String × String)
  files : List (String × FileRec)
  hashEvents : List String
  outMap : List (String × List Nat)
  deriving DecidableEq

/-- Function `main` of `dedup.py`: enumerate all sources, build the index (aborting on
the first `IOError`), create the output directory (no parents, exist-ok),
then copy every retained file.  The first component is the list of copy
operations actually performed before the run ended. -/
def dedupRun (hash : List Nat → List Nat) (fs : FS) (sources : List String)
    (ext : Option String) (out : String) :
    List (String × String) × Except String RunOut :=
  match processList hash fs.readB initDState (entriesOf fs sources ext) with
  | .error err => ([], .error err)
  | .ok st =>
    match mkdirNoParents fs.dirs out with
    | .error err => ([], .error err)
    | .ok _ =>
      match copyPhase fs.readB out st.files [] [] with
      | (cs, .error err) => (cs, .error err)
      | (cs, .ok m) =>
        (cs, .ok ⟨st.skipCount, st.conflictCount, st.conflicts, st.files,
                  st.hashEvents, m⟩)

/-- Zero-padding to two digits, as `strftime`'s `%m` / `%d` produce. -/
def pad2 (n : Nat) : String :=
  if n < 10 then "0" ++ toString n else toString n

/-- Python `datetime.strftime` restricted to the directives `sortfile.py` can emit:
`%Y` (year, unpadded as on glibc), `%m`, `%d` (zero-padded to two digits),
`%%` (a literal percent); every other character is copied verbatim. -/
def strftimeAux (d : SDate) : List Char → List Char
  | [] => []
  | [c] => if c = '%' then ['%'] else [c]
  | c :: c2 :: cs2 =>
    if c = '%' then
      if c2 = 'Y' then (toString d.year).data ++ strftimeAux d cs2
      else if c2 = 'm' then (pad2 d.month).data ++ strftimeAux d cs2
      else if c2 = 'd' then (pad2 d.day).data ++ strftimeAux d cs2
      else if c2 = '%' then '%' :: strftimeAux d cs2
      else '%' :: c2 :: strftimeAux d cs2
    else c :: strftimeAux d (c2 :: cs2)

def strftime (fmt : String) (d : SDate) : String :=
  ⟨strftimeAux d fmt.data⟩

/-- The format-string selection of `sortfile.py` (lines 26–31): an if/elif
chain over `args.groupby` with **no** else branch — any other value leaves
`datestr` unassigned (modelled as `none`). -/
def datestrOf (groupby sep : String) : Option String :=
  if groupby = "y" then some "%Y/"
  else if groupby = "ym" then some ("%Y" ++ sep ++ "%m/")
  else if groupby = "ymd" then some ("%Y" ++ sep ++ "%m" ++ sep ++ "%d/")
  else none

/-- Models `modified.strftime(datestr)` (lines 57–58): the date-bucket subpath for
one file, from its local-time modification date. -/
def slugFor (datestr : String) (d : SDate) : String :=
  strftime datestr d

/-- The destination of one file relative to the output directory:
`slug / srcfile.name` (the slug already ends in `/`). -/
def sortKey (datestr : String) (mdate : String → SDate) (e : Entry) : String :=
  slugFor datestr (mdate e.path) ++ baseName e.path

/-- The DateSorter's loop state: `file_count`, the copies performed
(src, dst key), and the destination tree's contents keyed by
slug-plus-filename (`copy2` overwrites an existing destination). -/
structure SState where
  fileCount : Nat
  copies : List (String × String)
  outMap : List (String × List Nat)
  deriving DecidableEq

def initSState : SState := ⟨0, [], []⟩

/-- One iteration of the `for srcfile in files` loop of `sortfile.py` (lines
50–64): skip non-files; compute the date slug; copy into
`dst / slug / srcfile.name`, overwriting silently; bump `file_count`.  The
per-file `dstfile.parent.mkdir(exist_ok=True, parents=True)` always succeeds
and is not observable in this model. -/
def sortStep (readB : String → Option (List Nat)) (mdate : String → SDate)
    (datestr : String) (st : SState) (e : Entry) : Except String SState :=
  if e.isFile then
    let key := sortKey datestr mdate e
    match readB e.path with
    | none => .error "IOError"
    | some b =>
      .ok { fileCount := st.fileCount + 1
            copies := st.copies ++ [(e.path, key)]
            outMap := dinsert st.outMap key b }
  else
    .ok st

/-- The DateSorter's whole file loop; the first `IOError` aborts, reporting
the copies performed so far. -/
def processSort (readB : String → Option (List Nat)) (mdate : String → SDate)
    (datestr : String) :
    SState → List Entry → List (String × String) × Except String SState
  | st, [] => (st.copies, .ok st)
  | st, e :: es =>
    match sortStep readB mdate datestr st e with
    | .error err => (st.copies, .error err)
    | .ok st' => processSort readB mdate datestr st' es

/-- Function `main` of `sortfile.py`: select the format string (an unsupported
`--groupby` value would leave `datestr` unbound and crash at its first use,
line 33), create the output directory (no parents, exist-ok), then process
every entry under `source`. -/
def sortRun (fs : FS) (source out groupby sep : String) :
    List (String × String) × Except String SState :=
  match datestrOf groupby sep with
  | none => ([], .error "UnboundLocalError")
  | some datestr =>
    match mkdirNoParents fs.dirs out with
    | .error err => ([], .error err)
    | .ok _ =>
      processSort fs.readB fs.mdate datestr initSState (globDir fs source none)

/-! ### Extraction helpers (used to state closed witness facts) -/

/-- Whether an `Except` is a success. -/
def isOkE {α : Type} : Except String α → Bool
  | .ok _ => true
  | .error _ => false

/-- The hash-computation trace of a completed Deduplicator run. -/
def hevOf (r : List (String × String) × Except String RunOut) : List String :=
  match r.snd with
  | .ok res => res.hashEvents
  | .error _ => []

/-- The output-directory contents of a completed Deduplicator run. -/
def outMapOf (r : List (String × String) × Except String RunOut) :
    List (String × List Nat) :=
  match r.snd with
  | .ok res => res.outMap
  | .error _ => []

/-- The destination-tree contents of a completed DateSorter run. -/
def outMapS (r : List (String × String) × Except String SState) :
    List (String × List Nat) :=
  match r.snd with
  | .ok st => st.outMap
  | .error _ => []

/-- The skip counter after one indexing step. -/
def skipOfStep (r : Except String DState) : Nat :=
  match r with
  | .ok st => st.skipCount
  | .error _ => 0

/-- The hash-event trace after one indexing step. -/
def hevOfStep (r : Except String DState) : List String :=
  match r with
  | .ok st => st.hashEvents
  | .error _ => []

/-- Well-formedness of the Deduplicator's index: keys are distinct, and each
record is stored under its file's base name. -/
def WFfiles (l : List (String × FileRec)) : Prop :=
  (l.map Prod.fst).Nodup ∧ ∀ p ∈ l, baseName p.2.file = p.1

/-! ### Concrete fixtures for witnesses and counterexamples -/

/-- A stand-in for the content-hash parameter on concrete inputs. -/
def hashId : List Nat → List Nat := fun b => b

/-- Two sources, each with one `x`, different contents. -/
def fsC1 : FS where
  listing := fun s =>
    if s = "s1" then some [⟨"s1/x", true⟩]
    else if s = "s2" then some [⟨"s2/x", true⟩]
    else none
  readB := fun p =>
    if p = "s1/x" then some [1] else if p = "s2/x" then some [2] else none
  dirs := ["out"]
  mdate := fun _ => ⟨2000, 1, 1⟩

/-- Same filesystem as `fsC6b`, defined separately. -/
def fsC6a : FS where
  listing := fun s =>
    if s = "s1" then some [⟨"s1/x", true⟩]
    else if s = "s2" then some [⟨"s2/x", true⟩]
    else none
  readB := fun p =>
    if p = "s1/x" then some [1] else if p = "s2/x" then some [2] else none
  dirs := ["out"]
  mdate := fun _ => ⟨2000, 1, 1⟩

/-- Same filesystem as `fsC6a`, defined separately. -/
def fsC6b : FS where
  listing := fun s =>
    if s = "s1" then some [⟨"s1/x", true⟩]
    else if s = "s2" then some [⟨"s2/x", true⟩]
    else none
  readB := fun p =>
    if p = "s1/x" then some [2 - 1] else if p = "s2/x" then some [2] else none
  dirs := ["out"]
  mdate := fun _ => ⟨2001, 2, 3⟩

/-- One source with three same-named files of identical content. -/
def fsC3 : FS where
  listing := fun s =>
    if s = "s" then some [⟨"s/a/x", true⟩, ⟨"s/b/x", true⟩, ⟨"s/c/x", true⟩]
    else none
  readB := fun p =>
    if p = "s/a/x" ∨ p = "s/b/x" ∨ p = "s/c/x" then some [7] else none
  dirs := ["out"]
  mdate := fun _ => ⟨2000, 1, 1⟩

/-- A filename collision where the second file is unreadable. -/
def fsC4 : FS where
  listing := fun s =>
    if s = "s" then some [⟨"s/a/x", true⟩, ⟨"s/b/x", true⟩] else none
  readB := fun p => if p = "s/a/x" then some [1] else none
  dirs := ["out"]
  mdate := fun _ => ⟨2000, 1, 1⟩

/-- Two same-named files in different subtrees with the same modification
date: they collide on the same date bucket and name. -/
def fsC7 : FS where
  listing := fun s =>
    if s = "s" then some [⟨"s/a/p.txt", true⟩, ⟨"s/b/p.txt", true⟩] else none
  readB := fun p =>
    if p = "s/a/p.txt" then some [1]
    else if p = "s/b/p.txt" then some [2]
    else none
  dirs := ["out"]
  mdate := fun _ => ⟨2021, 1, 2⟩

/-- A filesystem where no directory is traversable. -/
def fsC8 : FS where
  listing := fun _ => none
  readB := fun _ => none
  dirs := ["out"]
  mdate := fun _ => ⟨2000, 1, 1⟩

/-- An empty source, and no existing directories at all: creating the output
directory must fail for want of a parent. -/
def fsC9 : FS where
  listing := fun _ => some []
  readB := fun _ => none
  dirs := []
  mdate := fun _ => ⟨2000, 1, 1⟩

/-- Reader for the single-step witnesses: two distinct same-named files. -/
def rbW : String → Option (List Nat) := fun p =>
  if p = "a/x" then some [1] else if p = "b/x" then some [2] else none

/-- Index state already holding `x ↦ a/x`, no hash yet. -/
def stW : DState := ⟨0, 0, [], [("x", ⟨"a/x", none⟩)], []⟩

/-- A second regular file also named `x`. -/
def eW : Entry := ⟨"b/x", true⟩

/-! ### Helper lemmas -/

theorem omap_or {α β : Type} (f : α → β) (a b : Option α) :
    (a.or b).map f = (a.map f).or (b.map f) := by
  cases a <;> rfl

theorem alookup_append {α : Type} (l1 l2 : List (String × α)) (n : String) :
    alookup (l1 ++ l2) n = (alookup l1 n).or (alookup l2 n) := by
  induction l1 with
  | nil => simp [alookup, Option.none_or]
  | cons p rest ih =>
    obtain ⟨k, v⟩ := p
    by_cases hk : k = n <;> simp [alookup, hk, ih]

theorem alookup_eq_none {α : Type} (l : List (String × α)) (n : String) :
    alookup l n = none ↔ n ∉ l.map Prod.fst := by
  induction l with
  | nil => simp [alookup]
  | cons p rest ih =>
    obtain ⟨k, v⟩ := p
    simp only [alookup, List.map_cons, List.mem_cons]
    by_cases hk : k = n
    · subst hk; simp
    · simp only [if_neg hk, ih]
      constructor
      · intro h h2
        rcases h2 with h2 | h2
        · exact hk h2.symm
        · exact h h2
      · intro h h2
        exact h (Or.inr h2)

theorem alookup_setMd5_map_file (l : List (String × FileRec)) (k : String)
    (h : List Nat) (n : String) :
    (alookup (setMd5 l k h) n).map FileRec.file = (alookup l n).map FileRec.file := by
  induction l with
  | nil => rfl
  | cons p rest ih =>
    obtain ⟨k', r⟩ := p
    by_cases hk : k' = k
    · subst hk
      by_cases hn : k' = n
      · subst hn
        simp [setMd5, alookup]
      · simp [setMd5, alookup, hn, ih]
    · by_cases hn : k' = n
      · subst hn
        simp [setMd5, alookup, hk]
      · simp [setMd5, alookup, hk, hn, ih]

theorem setMd5_keys (l : List (String × FileRec)) (k : String) (h : List Nat) :
    (setMd5 l k h).map Prod.fst = l.map Prod.fst := by
  induction l with
  | nil => rfl
  | cons p rest ih =>
    obtain ⟨k', r⟩ := p
    by_cases hk : k' = k <;> simp [setMd5, hk, ih]

theorem setMd5_baseNames (l : List (String × FileRec)) (k : String) (h : List Nat)
    (hl : ∀ p ∈ l, baseName p.2.file = p.1) :
    ∀ p ∈ setMd5 l k h, baseName p.2.file = p.1 := by
  induction l with
  | nil => intro p hp; cases hp
  | cons q rest ih =>
    obtain ⟨k', r⟩ := q
    have hhead : baseName r.file = k' := hl (k', r) (List.mem_cons_self _ _)
    have htail : ∀ p ∈ rest, baseName p.2.file = p.1 :=
      fun p hp => hl p (List.mem_cons_of_mem _ hp)
    intro p hp
    by_cases hk : k' = k
    · simp only [setMd5, if_pos hk, List.mem_cons] at hp
      rcases hp with hp | hp
      · subst hp; exact hhead
      · exact ih htail p hp
    · simp only [setMd5, if_neg hk, List.mem_cons] at hp
      rcases hp with hp | hp
      · subst hp; exact hhead
      · exact ih htail p hp

theorem dinsert_mem_keys {α : Type} (l : List (String × α)) (k : String) (v : α)
    (n : String) :
    n ∈ (dinsert l k v).map Prod.fst ↔ n ∈ l.map Prod.fst ∨ n = k := by
  induction l with
  | nil => simp [dinsert]
  | cons p rest ih =>
    obtain ⟨k', v'⟩ := p
    by_cases hk : k' = k <;> simp [dinsert, hk, ih] <;> tauto

theorem dinsert_keys_nodup {α : Type} (l : List (String × α)) (k : String) (v : α)
    (h : (l.map Prod.fst).Nodup) : ((dinsert l k v).map Prod.fst).Nodup := by
  induction l with
  | nil => simp [dinsert]
  | cons p rest ih =>
    obtain ⟨k', v'⟩ := p
    simp only [List.map_cons, List.nodup_cons] at h
    by_cases hk : k' = k
    · simpa [dinsert, hk, List.nodup_cons] using h
    · simp only [dinsert, hk, if_false, List.map_cons, List.nodup_cons]
      refine ⟨fun hmem => ?_, ih h.2⟩
      rcases (dinsert_mem_keys rest k v k').mp hmem with hin | heq
      · exact h.1 hin
      · exact hk heq

theorem alookup_dinsert_self {α : Type} (l : List (String × α)) (k : String) (v : α) :
    alookup (dinsert l k v) k = some v := by
  induction l with
  | nil => simp [dinsert, alookup]
  | cons p rest ih =>
    obtain ⟨k', v'⟩ := p
    by_cases hk : k' = k <;> simp [dinsert, alookup, hk, ih]

theorem alookup_dinsert_ne {α : Type} (l : List (String × α)) (k : String) (v : α)
    (n : String) (hn : n ≠ k) : alookup (dinsert l k v) n = alookup l n := by
  have hkn : ¬(k = n) := fun h => hn h.symm
  induction l with
  | nil => simp [dinsert, alookup, hkn]
  | cons p rest ih =>
    obtain ⟨k', v'⟩ := p
    by_cases hk : k' = k
    · subst hk
      simp [dinsert, alookup, hkn]
    · by_cases hk'n : k' = n
      · subst hk'n
        simp [dinsert, alookup, hk]
      · simp [dinsert, alookup, hk, hk'n, ih]

theorem firstWithName_cons (e : Entry) (l : List Entry) (n : String) :
    firstWithName (e :: l) n =
      if baseName e.path = n then some e else firstWithName l n := by
  by_cases h : baseName e.path = n <;> simp [firstWithName, List.find?_cons, h]

theorem wf_insert (files : List (String × FileRec)) (e : Entry)
    (hwf : WFfiles files) (hl : alookup files (baseName e.path) = none) :
    WFfiles (files ++ [(baseName e.path, ⟨e.path, none⟩)]) := by
  obtain ⟨hnd, hbn⟩ := hwf
  have hnotin : baseName e.path ∉ files.map Prod.fst := (alookup_eq_none _ _).mp hl
  constructor
  · simp only [List.map_append, List.map_cons, List.map_nil]
    simp [List.nodup_append, hnd, hnotin]
  · intro p hp
    rcases List.mem_append.mp hp with hp | hp
    · exact hbn p hp
    · simp only [List.mem_singleton] at hp
      subst hp
      rfl

theorem wf_setMd5 (files : List (String × FileRec)) (k : String) (h : List Nat)
    (hwf : WFfiles files) : WFfiles (setMd5 files k h) :=
  ⟨by rw [setMd5_keys]; exact hwf.1, setMd5_baseNames _ _ _ hwf.2⟩

theorem dedupStep_err (hash : List Nat → List Nat)
    (readB : String → Option (List Nat)) (st : DState) (e : Entry) (err : String)
    (h : dedupStep hash readB st e = .error err) : err = "IOError" := by
  unfold dedupStep at h
  repeat' split at h
  all_goals simp_all

theorem dedupStep_wf (hash : List Nat → List Nat)
    (readB : String → Option (List Nat)) (st : DState) (e : Entry) (st1 : DState)
    (hwf : WFfiles st.files) (h : dedupStep hash readB st e = .ok st1) :
    WFfiles st1.files := by
  unfold dedupStep at h
  split at h
  · split at h
    next hl =>
      injection h with h
      subst h
      exact wf_insert _ _ hwf hl
    next r hl =>
      split at h
      · exact absurd h (by simp)
      next nb hnb =>
        split at h
        · exact absurd h (by simp)
        next kb hkb =>
          split at h <;>
          · injection h with h
            subst h
            exact wf_setMd5 _ _ _ hwf
  · injection h with h
    subst h
    exact hwf

theorem dedupStep_files (hash : List Nat → List Nat)
    (readB : String → Option (List Nat)) (st : DState) (e : Entry) (st1 : DState)
    (h : dedupStep hash readB st e = .ok st1) (n : String) :
    (alookup st1.files n).map FileRec.file =
      ((alookup st.files n).map FileRec.file).or
        (if e.isFile = true ∧ baseName e.path = n ∧
            alookup st.files (baseName e.path) = none
         then some e.path else none) := by
  unfold dedupStep at h
  split at h
  next hf =>
    split at h
    next hl =>
      injection h with h
      subst h
      by_cases hbn : baseName e.path = n
      · subst hbn
        rw [alookup_append]
        simp [alookup, hf, hl, omap_or]
      · rw [alookup_append]
        simp [alookup, hbn, omap_or, Option.or_none]
    next r hl =>
      split at h
      · exact absurd h (by simp)
      next nb hnb =>
        split at h
        · exact absurd h (by simp)
        next kb hkb =>
          have hfiles : st1.files = setMd5 st.files (baseName e.path) (hash kb) := by
            split at h <;>
            · injection h with h
              subst h
              rfl
          rw [hfiles, alookup_setMd5_map_file]
          simp [hl, Option.or_none]
  next hf =>
    injection h with h
    subst h
    simp [hf, Option.or_none]

theorem processList_err (hash : List Nat → List Nat)
    (readB : String → Option (List Nat)) :
    ∀ (l : List Entry) (st : DState) (err : String),
      processList hash readB st l = .error err → err = "IOError" := by
  intro l
  induction l with
  | nil =>
    intro st err h
    simp [processList] at h
  | cons e es ih =>
    intro st err h
    simp only [processList] at h
    cases hstep : dedupStep hash readB st e with
    | error e2 =>
      rw [hstep] at h
      have : e2 = err := by simpa using h
      subst this
      exact dedupStep_err _ _ _ _ _ hstep
    | ok st1 =>
      rw [hstep] at h
      exact ih st1 err h

theorem processList_wf (hash : List Nat → List Nat)
    (readB : String → Option (List Nat)) :
    ∀ (l : List Entry) (st st' : DState),
      WFfiles st.files → processList hash readB st l = .ok st' →
      WFfiles st'.files := by
  intro l
  induction l with
  | nil =>
    intro st st' hwf h
    have : st = st' := by simpa [processList] using h
    subst this
    exact hwf
  | cons e es ih =>
    intro st st' hwf h
    simp only [processList] at h
    cases hstep : dedupStep hash readB st e with
    | error e2 =>
      rw [hstep] at h
      exact absurd h (by simp)
    | ok st1 =>
      rw [hstep] at h
      exact ih st1 st' (dedupStep_wf _ _ _ _ _ hwf hstep) h

theorem processList_files (hash : List Nat → List Nat)
    (readB : String → Option (List Nat)) :
    ∀ (l : List Entry) (st st' : DState),
      processList hash readB st l = .ok st' →
      ∀ n, (alookup st'.files n).map FileRec.file =
        ((alookup st.files n).map FileRec.file).or
          ((firstWithName (regularsOf l) n).map Entry.path) := by
  intro l
  induction l with
  | nil =>
    intro st st' h n
    have : st = st' := by simpa [processList] using h
    subst this
    simp [regularsOf, firstWithName, Option.or_none]
  | cons e es ih =>
    intro st st' h n
    simp only [processList] at h
    cases hstep : dedupStep hash readB st e with
    | error e2 =>
      rw [hstep] at h
      exact absurd h (by simp)
    | ok st1 =>
      rw [hstep] at h
      have hrec := ih st1 st' h n
      have hstepf := dedupStep_files hash readB st e st1 hstep n
      rw [hrec, hstepf, Option.or_assoc]
      by_cases hf : e.isFile = true
      · have hregs : regularsOf (e :: es) = e :: regularsOf es := by
          simp [regularsOf, List.filter_cons, hf]
        rw [hregs, firstWithName_cons]
        by_cases hbn : baseName e.path = n
        · subst hbn
          cases hlk : alookup st.files (baseName e.path) with
          | none => simp [hlk, hf]
          | some r => simp [hlk, hf]
        · have hregs2 :
            (if e.isFile = true ∧ baseName e.path = n ∧
                alookup st.files (baseName e.path) = none
             then some e.path else none) = none := by
            simp [hbn]
          rw [hregs2]
          simp [hbn]
      · have hregs : regularsOf (e :: es) = regularsOf es := by
          simp [regularsOf, List.filter_cons, hf]
        rw [hregs]
        simp [hf]

theorem copyPhase_lookup (readB : String → Option (List Nat)) (out : String) :
    ∀ (files : List (String × FileRec)) (cs0 cs : List (String × String))
      (m0 m : List (String × List Nat)),
      (files.map Prod.fst).Nodup →
      (∀ p ∈ files, baseName p.2.file = p.1) →
      copyPhase readB out files cs0 m0 = (cs, .ok m) →
      ∀ n, alookup m n =
        (match alookup files n with
         | some r => readB r.file
         | none => alookup m0 n) := by
  intro files
  induction files with
  | nil =>
    intro cs0 cs m0 m _ _ h n
    simp only [copyPhase] at h
    have h2 : Except.ok (ε := String) m0 = .ok m := congrArg Prod.snd h
    injection h2 with h2
    subst h2
    simp [alookup]
  | cons p rest ih =>
    obtain ⟨k, r⟩ := p
    intro cs0 cs m0 m hnd hbn h n
    simp only [copyPhase] at h
    cases hrd : readB r.file with
    | none =>
      rw [hrd] at h
      exact absurd (congrArg Prod.snd h) (by simp)
    | some b =>
      rw [hrd] at h
      have hbk : baseName r.file = k := hbn (k, r) (List.mem_cons_self _ _)
      rw [hbk] at h
      have hnd' := hnd
      simp only [List.map_cons, List.nodup_cons] at hnd'
      have hrec := ih _ _ _ _ hnd'.2
        (fun p hp => hbn p (List.mem_cons_of_mem _ hp)) h n
      rw [hrec]
      by_cases hkn : k = n
      · subst hkn
        have hrest : alookup rest k = none := by
          rw [alookup_eq_none]
          exact fun hin => hnd'.1 hin
        rw [hrest]
        simp [alookup, alookup_dinsert_self, hrd]
      · cases hre : alookup rest n with
        | none =>
          simp [alookup, hkn, hre,
            alookup_dinsert_ne _ _ _ _ (fun hh => hkn hh.symm)]
        | some r' =>
          simp [alookup, hkn, hre]

theorem copyPhase_nodup (readB : String → Option (List Nat)) (out : String) :
    ∀ (files : List (String × FileRec)) (cs0 cs : List (String × String))
      (m0 m : List (String × List Nat)),
      (m0.map Prod.fst).Nodup →
      copyPhase readB out files cs0 m0 = (cs, .ok m) →
      (m.map Prod.fst).Nodup := by
  intro files
  induction files with
  | nil =>
    intro cs0 cs m0 m hnd h
    simp only [copyPhase] at h
    have h2 : Except.ok (ε := String) m0 = .ok m := congrArg Prod.snd h
    injection h2 with h2
    subst h2
    exact hnd
  | cons p rest ih =>
    obtain ⟨k, r⟩ := p
    intro cs0 cs m0 m hnd h
    simp only [copyPhase] at h
    cases hrd : readB r.file with
    | none =>
      rw [hrd] at h
      exact absurd (congrArg Prod.snd h) (by simp)
    | some b =>
      rw [hrd] at h
      exact ih _ _ _ _ (dinsert_keys_nodup _ _ _ hnd) h

theorem processSort_outMap (readB : String → Option (List Nat))
    (mdate : String → SDate) (datestr : String) :
    ∀ (es : List Entry) (st : SState) (cs : List (String × String)) (st' : SState),
      processSort readB mdate datestr st es = (cs, .ok st') →
      ∀ k, alookup st'.outMap k =
        (match (regularsOf es).reverse.find?
            (fun e => sortKey datestr mdate e = k) with
         | some e => readB e.path
         | none => alookup st.outMap k) := by
  intro es
  induction es with
  | nil =>
    intro st cs st' h k
    simp only [processSort] at h
    have h2 : Except.ok (ε := String) st = .ok st' := congrArg Prod.snd h
    injection h2 with h2
    subst h2
    simp [regularsOf]
  | cons e es ih =>
    intro st cs st' h k
    simp only [processSort] at h
    by_cases hf : e.isFile = true
    · cases hrd : readB e.path with
      | none =>
        rw [show sortStep readB mdate datestr st e = .error "IOError" by
              simp [sortStep, hf, hrd]] at h
        exact absurd (congrArg Prod.snd h) (by simp)
      | some b =>
        rw [show sortStep readB mdate datestr st e =
              .ok { fileCount := st.fileCount + 1
                    copies := st.copies ++ [(e.path, sortKey datestr mdate e)]
                    outMap := dinsert st.outMap (sortKey datestr mdate e) b } by
              simp [sortStep, hf, hrd]] at h
        have hrec := ih _ _ _ h k
        rw [hrec]
        have hregs : regularsOf (e :: es) = e :: regularsOf es := by
          simp [regularsOf, List.filter_cons, hf]
        rw [hregs, List.reverse_cons, List.find?_append]
        cases hfind : (regularsOf es).reverse.find?
            (fun e => sortKey datestr mdate e = k) with
        | some e' => simp
        | none =>
          by_cases hk : sortKey datestr mdate e = k
          · subst hk
            simp [List.find?, alookup_dinsert_self, hrd]
          · simp [List.find?, hk,
              alookup_dinsert_ne _ _ _ _ (fun hh => hk hh.symm)]
    · rw [show sortStep readB mdate datestr st e = .ok st by
            simp [sortStep, hf]] at h
      have hrec := ih _ _ _ h k
      rw [hrec]
      have hregs : regularsOf (e :: es) = regularsOf es := by
        simp [regularsOf, List.filter_cons, hf]
      rw [hregs]

theorem processSort_count (readB : String → Option (List Nat))
    (mdate : String → SDate) (datestr : String) :
    ∀ (es : List Entry) (st : SState) (cs : List (String × String)) (st' : SState),
      processSort readB mdate datestr st es = (cs, .ok st') →
      st'.fileCount = st.fileCount + (regularsOf es).length := by
  intro es
  induction es with
  | nil =>
    intro st cs st' h
    simp only [processSort] at h
    have h2 : Except.ok (ε := String) st = .ok st' := congrArg Prod.snd h
    injection h2 with h2
    subst h2
    simp [regularsOf]
  | cons e es ih =>
    intro st cs st' h
    simp only [processSort] at h
    by_cases hf : e.isFile = true
    · cases hrd : readB e.path with
      | none =>
        rw [show sortStep readB mdate datestr st e = .error "IOError" by
              simp [sortStep, hf, hrd]] at h
        exact absurd (congrArg Prod.snd h) (by simp)
      | some b =>
        rw [show sortStep readB mdate datestr st e =
              .ok { fileCount := st.fileCount + 1
                    copies := st.copies ++ [(e.path, sortKey datestr mdate e)]
                    outMap := dinsert st.outMap (sortKey datestr mdate e) b } by
              simp [sortStep, hf, hrd]] at h
        have hrec := ih _ _ _ h
        rw [hrec]
        have hregs : regularsOf (e :: es) = e :: regularsOf es := by
          simp [regularsOf, List.filter_cons, hf]
        rw [hregs]
        simp
        omega
    · rw [show sortStep readB mdate datestr st e = .ok st by
            simp [sortStep, hf]] at h
      have hrec := ih _ _ _ h
      rw [hrec]
      have hregs : regularsOf (e :: es) = regularsOf es := by
        simp [regularsOf, List.filter_cons, hf]
      rw [hregs]

theorem strftimeAux_cons_ne (d : SDate) (c : Char) (cs : List Char)
    (hc : c ≠ '%') : strftimeAux d (c :: cs) = c :: strftimeAux d cs := by
  cases cs with
  | nil => simp [strftimeAux, hc]
  | cons c2 cs2 => simp [strftimeAux, hc]

theorem strftimeAux_literal (d : SDate) :
    ∀ (l rest : List Char), (∀ c ∈ l, c ≠ '%') →
      strftimeAux d (l ++ rest) = l ++ strftimeAux d rest := by
  intro l
  induction l with
  | nil => intro rest _; rfl
  | cons c l' ih =>
    intro rest hl
    have hc : c ≠ '%' := hl c (List.mem_cons_self _ _)
    have hl' : ∀ c' ∈ l', c' ≠ '%' := fun c' h => hl c' (List.mem_cons_of_mem _ h)
    rw [List.cons_append, strftimeAux_cons_ne d c _ hc, ih rest hl',
      List.cons_append]

/-! ### Claim theorems -/

/-- Claim C1: a run of the Deduplicator into a fresh output directory yields
exactly one file per distinct base filename among the regular files
enumerated across all sources (in source-list order, then intra-directory
order); that file's bytes are those of the first-encountered source file
with that name, and the index record is never replaced by a later
same-named file. -/
theorem dedup_c1 (hash : List Nat → List Nat) (fs : FS) (sources : List String)
    (ext : Option String) (out : String) (cs : List (String × String))
    (res : RunOut) (h : dedupRun hash fs sources ext out = (cs, Except.ok res)) :
    (res.outMap.map Prod.fst).Nodup ∧
    (∀ n, alookup res.outMap n =
      (firstWithName (regularsOf (entriesOf fs sources ext)) n).bind
        (fun e => fs.readB e.path)) ∧
    (∀ n, (alookup res.files n).map FileRec.file =
      (firstWithName (regularsOf (entriesOf fs sources ext)) n).map Entry.path) := by
  unfold dedupRun at h
  split at h
  · exact absurd (congrArg Prod.snd h) (by simp)
  next st hproc =>
    split at h
    · exact absurd (congrArg Prod.snd h) (by simp)
    next dirs2 hmk =>
      split at h
      · exact absurd (congrArg Prod.snd h) (by simp)
      next cs2 m hcp =>
        have hres : Except.ok (ε := String)
            (⟨st.skipCount, st.conflictCount, st.conflicts, st.files,
              st.hashEvents, m⟩ : RunOut) = .ok res := congrArg Prod.snd h
        injection hres with hres
        subst hres
        have hwf0 : WFfiles initDState.files :=
          ⟨List.nodup_nil, by intro p hp; cases hp⟩
        have hwf := processList_wf hash fs.readB _ _ _ hwf0 hproc
        have hff := processList_files hash fs.readB _ _ _ hproc
        have hcpl := copyPhase_lookup fs.readB out st.files [] cs2 [] m
          hwf.1 hwf.2 hcp
        refine ⟨copyPhase_nodup fs.readB out st.files [] cs2 [] m
          (by simp) hcp, ?_, ?_⟩
        · intro n
          have hffn := hff n
          simp only [initDState, alookup, Option.map_none', Option.none_or] at hffn
          rw [show (⟨st.skipCount, st.conflictCount, st.conflicts, st.files,
                st.hashEvents, m⟩ : RunOut).outMap = m from rfl]
          rw [hcpl n]
          cases hfw : firstWithName (regularsOf (entriesOf fs sources ext)) n with
          | none =>
            rw [hfw] at hffn
            simp only [Option.map_none'] at hffn
            have : alookup st.files n = none := by
              cases hsf : alookup st.files n with
              | none => rfl
              | some r => rw [hsf] at hffn; simp at hffn
            rw [this]
            simp [alookup]
          | some e =>
            rw [hfw] at hffn
            simp only [Option.map_some'] at hffn
            cases hsf : alookup st.files n with
            | none => rw [hsf] at hffn; simp at hffn
            | some r =>
              rw [hsf] at hffn
              simp only [Option.map_some', Option.some.injEq] at hffn
              simp [hffn]
        · intro n
          have hffn := hff n
          simp only [initDState, alookup, Option.map_none', Option.none_or] at hffn
          exact hffn

/-- Witness for C1 on a concrete two-source run with a filename conflict:
the output holds `x` with the first-seen content `[1]`. -/
theorem dedup_c1_witness :
    alookup (outMapOf (dedupRun hashId fsC1 ["s1", "s2"] none "out")) "x" =
      some [1] := by
  have hrun : dedupRun hashId fsC1 ["s1", "s2"] none "out" =
      ([("s1/x", "out/x")], Except.ok
        ⟨1, 1, [("s1/x", "s2/x")], [("x", ⟨"s1/x", some [1]⟩)],
         ["s2/x", "s1/x"], [("x", [1])]⟩) := rfl
  have h := (dedup_c1 hashId fsC1 ["s1", "s2"] none "out" _ _ hrun).2.1 "x"
  rw [hrun]
  simpa using h.trans (by decide)

/-- Claim C2: on every filename collision, `skip_count` increments by exactly
one regardless of the hash outcome; equal hashes leave `conflict_count`, the
conflict list and the chosen-file index unchanged; differing hashes also
increment `conflict_count` by one, append a conflict record naming both
paths, and still leave the first-seen file retained for every filename. -/
theorem dedup_c2 (hash : List Nat → List Nat)
    (readB : String → Option (List Nat)) (st : DState) (e : Entry) (r : FileRec)
    (nb kb : List Nat) (hf : e.isFile = true)
    (hl : alookup st.files (baseName e.path) = some r)
    (hn : readB e.path = some nb) (hk : readB r.file = some kb) :
    isOkE (dedupStep hash readB st e) = true ∧
    ∀ st', dedupStep hash readB st e = .ok st' →
      st'.skipCount = st.skipCount + 1 ∧
      (∀ n, (alookup st'.files n).map FileRec.file =
        (alookup st.files n).map FileRec.file) ∧
      (hash kb = hash nb →
        st'.conflictCount = st.conflictCount ∧ st'.conflicts = st.conflicts) ∧
      (hash kb ≠ hash nb →
        st'.conflictCount = st.conflictCount + 1 ∧
        st'.conflicts = st.conflicts ++ [(r.file, e.path)]) := by
  have hstep : dedupStep hash readB st e =
      (if hash kb = hash nb then
        .ok { st with
              hashEvents := st.hashEvents ++ [e.path, r.file]
              files := setMd5 st.files (baseName e.path) (hash kb)
              skipCount := st.skipCount + 1 }
      else
        .ok { st with
              hashEvents := st.hashEvents ++ [e.path, r.file]
              files := setMd5 st.files (baseName e.path) (hash kb)
              conflicts := st.conflicts ++ [(r.file, e.path)]
              conflictCount := st.conflictCount + 1
              skipCount := st.skipCount + 1 }) := by
    simp [dedupStep, hf, hl, hn, hk]
  by_cases hh : hash kb = hash nb
  · rw [hstep, if_pos hh]
    refine ⟨rfl, ?_⟩
    intro st' hst'
    injection hst' with hst'
    subst hst'
    exact ⟨rfl, fun n => alookup_setMd5_map_file _ _ _ n,
      fun _ => ⟨rfl, rfl⟩, fun hne => absurd hh hne⟩
  · rw [hstep, if_neg hh]
    refine ⟨rfl, ?_⟩
    intro st' hst'
    injection hst' with hst'
    subst hst'
    exact ⟨rfl, fun n => alookup_setMd5_map_file _ _ _ n,
      fun heq => absurd heq hh, fun _ => ⟨rfl, rfl⟩⟩

/-- Witness for C2 at a concrete collision (`a/x` indexed, `b/x` arrives
with different content): the skip counter goes from 0 to 1. -/
theorem dedup_c2_witness : skipOfStep (dedupStep hashId rbW stW eW) = 1 := by
  have h := dedup_c2 hashId rbW stW eW ⟨"a/x", none⟩ [2] [1] rfl rfl rfl rfl
  cases hst : dedupStep hashId rbW stW eW with
  | error err =>
    have h1 := h.1
    rw [hst] at h1
    exact absurd h1 (by simp [isOkE])
  | ok st' =>
    have h2 := (h.2 st' hst).1
    simp [skipOfStep, h2, stW]

/-- Counterexample to claim C3 as stated: with three same-named files
`s/a/x`, `s/b/x`, `s/c/x`, the retained record's file `s/a/x` is passed to
the hash function twice — once per collision — so a record's hash is not
computed at most once per run. -/
theorem dedup_c3_counterexample :
    hevOf (dedupRun hashId fsC3 ["s"] none "out") =
      ["s/b/x", "s/a/x", "s/c/x", "s/a/x"] ∧
    (hevOf (dedupRun hashId fsC3 ["s"] none "out")).count "s/a/x" = 2 := by
  constructor
  · rfl
  · rfl

/-- Claim C3 as amended: hashing happens only when a filename collision
occurs (a first-seen filename and a non-file entry trigger no hashing), and
every collision hashes exactly two files — the arriving file and then the
retained record's file, the latter being re-hashed on each further
collision with that filename rather than reused from a cache. -/
theorem dedup_c3 (hash : List Nat → List Nat)
    (readB : String → Option (List Nat)) (st : DState) (e : Entry)
    (st' : DState) (h : dedupStep hash readB st e = .ok st') :
    ((e.isFile = false ∨ alookup st.files (baseName e.path) = none) →
      st'.hashEvents = st.hashEvents) ∧
    (∀ r, e.isFile = true → alookup st.files (baseName e.path) = some r →
      st'.hashEvents = st.hashEvents ++ [e.path, r.file]) := by
  constructor
  · intro hcase
    rcases hcase with hf | hl
    · unfold dedupStep at h
      rw [if_neg (by simp [hf])] at h
      injection h with h
      subst h
      rfl
    · by_cases hf : e.isFile = true
      · unfold dedupStep at h
        rw [if_pos hf, hl] at h
        injection h with h
        subst h
        rfl
      · unfold dedupStep at h
        rw [if_neg (by simpa using hf)] at h
        injection h with h
        subst h
        rfl
  · intro r hf hl
    cases hn : readB e.path with
    | none =>
      rw [show dedupStep hash readB st e = .error "IOError" by
            simp [dedupStep, hf, hl, hn]] at h
      exact absurd h (by simp)
    | some nb =>
      cases hk : readB r.file with
      | none =>
        rw [show dedupStep hash readB st e = .error "IOError" by
              simp [dedupStep, hf, hl, hn, hk]] at h
        exact absurd h (by simp)
      | some kb =>
        by_cases hh : hash kb = hash nb
        · rw [show dedupStep hash readB st e =
              .ok { st with
                    hashEvents := st.hashEvents ++ [e.path, r.file]
                    files := setMd5 st.files (baseName e.path) (hash kb)
                    skipCount := st.skipCount + 1 } by
              simp [dedupStep, hf, hl, hn, hk, hh]] at h
          injection h with h
          subst h
          rfl
        · rw [show dedupStep hash readB st e =
              .ok { st with
                    hashEvents := st.hashEvents ++ [e.path, r.file]
                    files := setMd5 st.files (baseName e.path) (hash kb)
                    conflicts := st.conflicts ++ [(r.file, e.path)]
                    conflictCount := st.conflictCount + 1
                    skipCount := st.skipCount + 1 } by
              simp [dedupStep, hf, hl, hn, hk, hh]] at h
          injection h with h
          subst h
          rfl

/-- Witness for the amended C3 at a concrete collision: the step hashes the
arriving file `b/x` and then the retained file `a/x`, in that order. -/
theorem dedup_c3_witness :
    hevOfStep (dedupStep hashId rbW stW eW) = ["b/x", "a/x"] := by
  have hst : dedupStep hashId rbW stW eW =
      .ok ⟨1, 1, [("a/x", "b/x")], [("x", ⟨"a/x", some [1]⟩)], ["b/x", "a/x"]⟩ :=
    rfl
  exact (dedup_c3 hashId rbW stW eW _ hst).2 ⟨"a/x", none⟩ rfl rfl

/-- Claim C4: if reading a file for hashing fails, the run aborts
immediately with `IOError`, and no file has been copied into the output
directory at that point (the performed-copies trace is empty). -/
theorem dedup_c4 (hash : List Nat → List Nat) (fs : FS) (sources : List String)
    (ext : Option String) (out : String) (err : String)
    (h : processList hash fs.readB initDState (entriesOf fs sources ext) =
      .error err) :
    dedupRun hash fs sources ext out = ([], .error "IOError") := by
  have herr : err = "IOError" := processList_err hash fs.readB _ _ _ h
  subst herr
  unfold dedupRun
  rw [h]

/-- Witness for C4: a collision whose second file `s/b/x` is unreadable
aborts the concrete run with `IOError` before any copy. -/
theorem dedup_c4_witness :
    dedupRun hashId fsC4 ["s"] none "out" = ([], .error "IOError") :=
  dedup_c4 hashId fsC4 ["s"] none "out" "IOError" rfl

/-- Claim C6: the Deduplicator is deterministic given its inputs — two runs
over filesystems with the same enumerations, the same file contents and the
same directory state (the output directory fresh in both) produce identical
results, output directory contents included. -/
theorem dedup_c6 (hash : List Nat → List Nat) (fs1 fs2 : FS)
    (sources : List String) (ext : Option String) (out : String)
    (h1 : ∀ s, fs1.listing s = fs2.listing s)
    (h2 : ∀ p, fs1.readB p = fs2.readB p)
    (h3 : fs1.dirs = fs2.dirs) :
    dedupRun hash fs1 sources ext out = dedupRun hash fs2 sources ext out := by
  have hr : fs1.readB = fs2.readB := funext h2
  have he : ∀ ss : List String, entriesOf fs1 ss ext = entriesOf fs2 ss ext := by
    intro ss
    induction ss with
    | nil => rfl
    | cons s ss ih =>
      show globDir fs1 s ext ++ entriesOf fs1 ss ext =
        globDir fs2 s ext ++ entriesOf fs2 ss ext
      rw [ih]
      have : globDir fs1 s ext = globDir fs2 s ext := by
        unfold globDir
        rw [h1 s]
      rw [this]
  unfold dedupRun
  rw [he sources, hr, h3]

/-- Witness for C6: two separately defined filesystems with pointwise-equal
enumerations, contents and directories give identical runs. -/
theorem dedup_c6_witness :
    dedupRun hashId fsC6a ["s1", "s2"] none "out" =
      dedupRun hashId fsC6b ["s1", "s2"] none "out" :=
  dedup_c6 hashId fsC6a fsC6b ["s1", "s2"] none "out"
    (fun _ => rfl) (fun _ => rfl) rfl

/-- Counterexample to claim C8 as stated: `fsC8`'s source `missing` cannot
be traversed (its listing is `none`, as for a nonexistent directory), yet
the run does not fail — it completes successfully with an empty output,
because `pathlib.Path.glob` silently yields nothing for such a source. -/
theorem dedup_c8_counterexample :
    fsC8.listing "missing" = none ∧
    (dedupRun hashId fsC8 ["missing"] none "out").snd =
      .ok ⟨0, 0, [], [], [], []⟩ :=
  ⟨rfl, rfl⟩

/-- Claim C8 as amended: the Deduplicator performs no traversability
validation — a source that cannot be traversed contributes no entries, and
a run over only such sources succeeds with an empty index and output
(provided the output directory can be created). -/
theorem dedup_c8 (hash : List Nat → List Nat) (fs : FS) (sources : List String)
    (ext : Option String) (out : String)
    (h : ∀ s ∈ sources, fs.listing s = none)
    (hmk : out ∈ fs.dirs ∨ parentDir out ∈ fs.dirs) :
    dedupRun hash fs sources ext out = ([], .ok ⟨0, 0, [], [], [], []⟩) := by
  have he : ∀ ss : List String, (∀ s ∈ ss, fs.listing s = none) →
      entriesOf fs ss ext = [] := by
    intro ss
    induction ss with
    | nil => intro _; rfl
    | cons s ss ih =>
      intro hss
      show globDir fs s ext ++ entriesOf fs ss ext = []
      have hg : globDir fs s ext = [] := by
        unfold globDir
        rw [hss s (List.mem_cons_self _ _)]
      rw [hg, List.nil_append]
      exact ih (fun s2 hs2 => hss s2 (List.mem_cons_of_mem _ hs2))
  unfold dedupRun
  rw [he sources h]
  rcases hmk with hmo | hmp
  · simp [processList, mkdirNoParents, hmo, copyPhase, initDState]
  · by_cases hmo : out ∈ fs.dirs
    · simp [processList, mkdirNoParents, hmo, copyPhase, initDState]
    · simp [processList, mkdirNoParents, hmo, hmp, copyPhase, initDState]

/-- Witness for the amended C8: one untraversable source, an existing
output directory — the run succeeds and copies nothing. -/
theorem dedup_c8_witness :
    dedupRun hashId fsC8 ["missing"] none "out" =
      ([], .ok ⟨0, 0, [], [], [], []⟩) :=
  dedup_c8 hashId fsC8 ["missing"] none "out"
    (fun _ _ => rfl) (Or.inl (by decide))

/-- Claim C9: in both tools the output directory is created with
`parents=False, exist_ok=True`: an existing directory is left as-is, an
absent one is created when its parent exists, and when the parent is also
absent creation fails with `IOError` — in each tool before any file has
been copied (the performed-copies trace of the failing run is empty). -/
theorem mkdir_c9 :
    (∀ (dirs : List String) (out : String),
      (out ∈ dirs → mkdirNoParents dirs out = .ok dirs) ∧
      (out ∉ dirs → parentDir out ∈ dirs →
        mkdirNoParents dirs out = .ok (out :: dirs)) ∧
      (out ∉ dirs → parentDir out ∉ dirs →
        mkdirNoParents dirs out = .error "IOError")) ∧
    (∀ (hash : List Nat → List Nat) (fs : FS) (sources : List String)
        (ext : Option String) (out : String) (st : DState),
      processList hash fs.readB initDState (entriesOf fs sources ext) = .ok st →
      out ∉ fs.dirs → parentDir out ∉ fs.dirs →
      dedupRun hash fs sources ext out = ([], .error "IOError")) ∧
    (∀ (fs : FS) (source out groupby sep ds : String),
      datestrOf groupby sep = some ds →
      out ∉ fs.dirs → parentDir out ∉ fs.dirs →
      sortRun fs source out groupby sep = ([], .error "IOError")) := by
  refine ⟨fun dirs out => ⟨?_, ?_, ?_⟩, ?_, ?_⟩
  · intro ho
    unfold mkdirNoParents
    rw [if_pos ho]
  · intro ho hp
    unfold mkdirNoParents
    rw [if_neg ho, if_pos hp]
  · intro ho hp
    unfold mkdirNoParents
    rw [if_neg ho, if_neg hp]
  · intro hash fs sources ext out st hproc ho hp
    have hmk : mkdirNoParents fs.dirs out = .error "IOError" := by
      unfold mkdirNoParents
      rw [if_neg ho, if_neg hp]
    unfold dedupRun
    rw [hproc, hmk]
  · intro fs source out groupby sep ds hds ho hp
    have hmk : mkdirNoParents fs.dirs out = .error "IOError" := by
      unfold mkdirNoParents
      rw [if_neg ho, if_neg hp]
    unfold sortRun
    rw [hds, hmk]

/-- Witness for C9: with no directories in existence, creating `p/out`
(whose parent `p` is absent) aborts the concrete Deduplicator run with
`IOError` and an empty copy trace. -/
theorem mkdir_c9_witness :
    dedupRun hashId fsC9 ["s"] none "p/out" = ([], .error "IOError") :=
  mkdir_c9.2.1 hashId fsC9 ["s"] none "p/out" initDState rfl
    (by decide) (by decide)

theorem strftimeAux_Y (d : SDate) (cs : List Char) :
    strftimeAux d ('%' :: 'Y' :: cs) = (toString d.year).data ++ strftimeAux d cs := by
  simp [strftimeAux]

theorem strftimeAux_month (d : SDate) (cs : List Char) :
    strftimeAux d ('%' :: 'm' :: cs) = (pad2 d.month).data ++ strftimeAux d cs := by
  simp [strftimeAux]

theorem strftimeAux_day (d : SDate) (cs : List Char) :
    strftimeAux d ('%' :: 'd' :: cs) = (pad2 d.day).data ++ strftimeAux d cs := by
  simp [strftimeAux]

/-- Claim C5: the DateSorter's destination subpath is `strftime` applied to
the file's local-time modification date, with format `%Y/` for `y`,
`%Y{sep}%m/` for `ym` and `%Y{sep}%m{sep}%d/` for `ymd`; for a separator
free of `%`, these render as `YYYY/`, `YYYY{sep}MM/` and `YYYY{sep}MM{sep}DD/`
(month and day zero-padded). -/
theorem sort_c5 (sep : String) (d : SDate) (hsep : ∀ c ∈ sep.data, c ≠ '%') :
    datestrOf "y" sep = some "%Y/" ∧
    datestrOf "ym" sep = some ("%Y" ++ sep ++ "%m/") ∧
    datestrOf "ymd" sep = some ("%Y" ++ sep ++ "%m" ++ sep ++ "%d/") ∧
    slugFor "%Y/" d = toString d.year ++ "/" ∧
    slugFor ("%Y" ++ sep ++ "%m/") d =
      toString d.year ++ sep ++ pad2 d.month ++ "/" ∧
    slugFor ("%Y" ++ sep ++ "%m" ++ sep ++ "%d/") d =
      toString d.year ++ sep ++ pad2 d.month ++ sep ++ pad2 d.day ++ "/" := by
  refine ⟨rfl, rfl, rfl, ?_, ?_, ?_⟩
  · apply String.ext
    show strftimeAux d ('%' :: 'Y' :: '/' :: []) = (toString d.year ++ "/").data
    rw [strftimeAux_Y]
    show (toString d.year).data ++ ['/'] =
      (toString d.year).data ++ ("/" : String).data
    rfl
  · apply String.ext
    show strftimeAux d (("%Y" ++ sep ++ "%m/").data) =
      (toString d.year ++ sep ++ pad2 d.month ++ "/").data
    have hdata : ("%Y" ++ sep ++ "%m/").data =
        '%' :: 'Y' :: (sep.data ++ ('%' :: 'm' :: '/' :: [])) := by
      show ("%Y".data ++ sep.data) ++ "%m/".data = _
      simp
    rw [hdata, strftimeAux_Y, strftimeAux_literal d sep.data _ hsep,
      strftimeAux_month]
    show (toString d.year).data ++ (sep.data ++ ((pad2 d.month).data ++ ['/'])) =
      ((toString d.year).data ++ sep.data ++ (pad2 d.month).data) ++
        ("/" : String).data
    simp
  · apply String.ext
    show strftimeAux d (("%Y" ++ sep ++ "%m" ++ sep ++ "%d/").data) =
      (toString d.year ++ sep ++ pad2 d.month ++ sep ++ pad2 d.day ++ "/").data
    have hdata : ("%Y" ++ sep ++ "%m" ++ sep ++ "%d/").data =
        '%' :: 'Y' :: (sep.data ++
          ('%' :: 'm' :: (sep.data ++ ('%' :: 'd' :: '/' :: [])))) := by
      show ((("%Y".data ++ sep.data) ++ "%m".data) ++ sep.data) ++ "%d/".data = _
      simp
    rw [hdata, strftimeAux_Y, strftimeAux_literal d sep.data _ hsep,
      strftimeAux_month, strftimeAux_literal d sep.data _ hsep, strftimeAux_day]
    show (toString d.year).data ++
        (sep.data ++ ((pad2 d.month).data ++
          (sep.data ++ ((pad2 d.day).data ++ ['/'])))) =
      ((((toString d.year).data ++ sep.data) ++ (pad2 d.month).data) ++
        sep.data ++ (pad2 d.day).data) ++ ("/" : String).data
    simp

/-- Witness for C5 at the claim's concrete instance: granularity `ymd` with
separator `.` on a file modified 2021-01-02 yields subpath `2021.01.02/`. -/
theorem sort_c5_witness :
    datestrOf "ymd" "." = some ("%Y" ++ "." ++ "%m" ++ "." ++ "%d/") ∧
    slugFor ("%Y" ++ "." ++ "%m" ++ "." ++ "%d/") ⟨2021, 1, 2⟩ =
      "2021.01.02/" := by
  have h := sort_c5 "." ⟨2021, 1, 2⟩ (by decide)
  exact ⟨h.2.2.1, h.2.2.2.2.2.trans (by decide)⟩

/-- Claim C7: in the DateSorter, when several enumerated files map to the
same date bucket and base name, the destination holds the bytes of the
last-enumerated such file (silent overwrite, last-seen wins), and the file
counter still counts every regular file — there is no conflict check,
warning or skip. -/
theorem sort_c7 (fs : FS) (source out groupby sep ds : String)
    (cs : List (String × String)) (st' : SState)
    (hds : datestrOf groupby sep = some ds)
    (h : sortRun fs source out groupby sep = (cs, .ok st')) :
    (∀ k, alookup st'.outMap k =
      (match (regularsOf (globDir fs source none)).reverse.find?
          (fun e => sortKey ds fs.mdate e = k) with
       | some e => fs.readB e.path
       | none => none)) ∧
    st'.fileCount = (regularsOf (globDir fs source none)).length := by
  unfold sortRun at h
  rw [hds] at h
  cases hmk : mkdirNoParents fs.dirs out with
  | error err =>
    rw [hmk] at h
    exact absurd (congrArg Prod.snd h) (by simp)
  | ok d2 =>
    rw [hmk] at h
    have h' : processSort fs.readB fs.mdate ds initSState
        (globDir fs source none) = (cs, .ok st') := h
    constructor
    · intro k
      have hm := processSort_outMap fs.readB fs.mdate ds _ _ _ _ h' k
      rw [hm]
      cases hfind : (regularsOf (globDir fs source none)).reverse.find?
          (fun e => sortKey ds fs.mdate e = k) with
      | some e => rfl
      | none => rfl
    · have hc := processSort_count fs.readB fs.mdate ds _ _ _ _ h'
      simpa [initSState] using hc

/-- Witness for C7: two same-named files in the same date bucket; the
destination ends up holding the second file's bytes `[2]`. -/
theorem sort_c7_witness :
    alookup (outMapS (sortRun fsC7 "s" "out" "ymd" "-")) "2021-01-02/p.txt" =
      some [2] := by
  have hrun : sortRun fsC7 "s" "out" "ymd" "-" =
      ([("s/a/p.txt", "2021-01-02/p.txt"), ("s/b/p.txt", "2021-01-02/p.txt")],
       .ok ⟨2, [("s/a/p.txt", "2021-01-02/p.txt"),
                ("s/b/p.txt", "2021-01-02/p.txt")],
            [("2021-01-02/p.txt", [2])]⟩) := rfl
  have h := (sort_c7 fsC7 "s" "out" "ymd" "-" "%Y-%m-%d/" _ _ rfl hrun).1
    "2021-01-02/p.txt"
  rw [hrun]
  simpa using h.trans (by decide)

/-- Claim C10: under the precondition that `--groupby` is one of `y`, `ym`,
`ymd` (the only values the CLI accepts), the format-string selection always
assigns a format string; the if/elif chain has no default branch, so any
other value leaves it unassigned. -/
theorem sort_c10 (groupby sep : String) :
    ((groupby = "y" ∨ groupby = "ym" ∨ groupby = "ymd") →
      (datestrOf groupby sep).isSome = true) ∧
    (groupby ≠ "y" → groupby ≠ "ym" → groupby ≠ "ymd" →
      datestrOf groupby sep = none) := by
  constructor
  · rintro (h | h | h) <;> subst h <;> simp [datestrOf]
  · intro h1 h2 h3
    simp [datestrOf, h1, h2, h3]

/-- Witness for C10 at the accepted value `ymd`. -/
theorem sort_c10_witness : (datestrOf "ymd" "-").isSome = true :=
  (sort_c10 "ymd" "-").1 (Or.inr (Or.inr rfl))

end DedupSpec
